import Mathlib

/-!
Verification of the khoj-search storage engine:
`src/frontend/src/services/bigtable/BigtableService.ts` (table store) and
the blob index layer (`BlobIndexService`).  JavaScript values stored in
cells are modelled by `JsValue`; JS `Map`s and plain objects are modelled
as insertion-ordered association lists (`alistGet` / `alistSet` /
`alistHas`), matching `Map.set` / object-key assignment semantics
(update-in-place for an existing key, append otherwise; iteration in
insertion order).  Machine timestamps are `Int`; JS falsiness of a number
is `= 0` (`NaN` is not modelled).
-/

/-- Model of a JavaScript value as stored in a Bigtable cell or supplied in
a search query: string, (integer) number, boolean, null, array or object.
JS numbers are modelled as `Int`: every value the code manipulates in the
claims is integral, and `NaN`/fractional behaviour is out of scope. -/
inductive JsValue where
  | vStr (s : String)
  | vNum (n : Int)
  | vBool (b : Bool)
  | vNull
  | vArr (elems : List JsValue)
  | vObj (fields : List (String × JsValue))
deriving Repr

/-- Opening brace character, kept out of string literals. -/
def braceOpen : Char := Char.ofNat 123

/-- Closing brace character, kept out of string literals. -/
def braceClose : Char := Char.ofNat 125

/-- JS `s.startsWith(p)` (on code points). -/
def strStartsWith (s p : String) : Bool := p.data.isPrefixOf s.data

/-- JS `s.endsWith(p)` (on code points). -/
def strEndsWith (s p : String) : Bool := p.data.isSuffixOf s.data

/-- JS `s.substring(n)`: drop the first `n` characters. -/
def strDrop (s : String) (n : Nat) : String := String.mk (s.data.drop n)

/-- JS string comparison `a < b`: lexicographic on code units. -/
def charListLt : List Char → List Char → Bool
  | _, [] => false
  | [], _ :: _ => true
  | a :: as, b :: bs => if a < b then true else if b < a then false else charListLt as bs

/-- JS `a < b` on strings. -/
def strLtB (a b : String) : Bool := charListLt a.data b.data

/-- First-match lookup in an insertion-ordered association list
(JS `Map.get` / object property read). -/
def alistGet {α : Type} (k : String) : List (String × α) → Option α
  | [] => none
  | (k2, v) :: rest => if k2 = k then some v else alistGet k rest

/-- JS `Map.has` / truthiness of an object property holding an object. -/
def alistHas {α : Type} (k : String) (l : List (String × α)) : Bool :=
  (alistGet k l).isSome

/-- JS `Map.set` / object property assignment: update the first entry with
this key in place, else append at the end (insertion order preserved). -/
def alistSet {α : Type} (k : String) (v : α) : List (String × α) → List (String × α)
  | [] => [(k, v)]
  | (k2, v2) :: rest => if k2 = k then (k, v) :: rest else (k2, v2) :: alistSet k v rest

/-- JS `xs.includes(x)` for a string list. -/
def memB (x : String) (xs : List String) : Bool := xs.any (fun y => decide (y = x))

/-- Escape one character as inside a JSON string literal
(`JSON.stringify`; `\uXXXX` escapes for other control characters are not
modelled — no claim stores control characters). -/
def escChar (c : Char) : String :=
  if c = '"' then "\\\"" else if c = '\\' then "\\\\"
  else if c = '\n' then "\\n" else if c = '\t' then "\\t" else if c = '\r' then "\\r"
  else String.mk [c]

/-- Escape a string as the body of a JSON string literal. -/
def jsonEscape (s : String) : String := s.data.foldl (fun acc c => acc ++ escChar c) ""

mutual

/-- JS `JSON.stringify` on the modelled value space (fractional numbers and
`undefined` do not occur in `JsValue`). -/
def jsonStringify : JsValue → String
  | .vNull => "null"
  | .vBool b => if b then "true" else "false"
  | .vNum n => toString n
  | .vStr s => "\"" ++ jsonEscape s ++ "\""
  | .vArr xs => "[" ++ stringifyElems xs ++ "]"
  | .vObj fs => String.mk [braceOpen] ++ stringifyFields fs ++ String.mk [braceClose]

/-- Comma-separated `JSON.stringify` of array elements. -/
def stringifyElems : List JsValue → String
  | [] => ""
  | [x] => jsonStringify x
  | x :: y :: rest => jsonStringify x ++ "," ++ stringifyElems (y :: rest)

/-- Comma-separated `JSON.stringify` of object entries. -/
def stringifyFields : List (String × JsValue) → String
  | [] => ""
  | [kv] => "\"" ++ jsonEscape kv.1 ++ "\":" ++ jsonStringify kv.2
  | kv :: kv2 :: rest =>
    "\"" ++ jsonEscape kv.1 ++ "\":" ++ jsonStringify kv.2 ++ "," ++ stringifyFields (kv2 :: rest)

end

/-- Skip JSON whitespace. -/
def skipWs : List Char → List Char
  | [] => []
  | c :: rest => if c = ' ' ∨ c = '\n' ∨ c = '\t' ∨ c = '\r' then skipWs rest else c :: rest

/-- Decode one JSON string escape (after a backslash); `\uXXXX` escapes are
not modelled. -/
def unescapeChar (c : Char) : Option Char :=
  if c = '"' then some '"' else if c = '\\' then some '\\' else if c = '/' then some '/'
  else if c = 'n' then some '\n' else if c = 't' then some '\t' else if c = 'r' then some '\r'
  else if c = 'b' then some (Char.ofNat 8) else if c = 'f' then some (Char.ofNat 12)
  else none

/-- Parse the body of a JSON string literal up to the closing quote. -/
def pStringGo (acc : List Char) : List Char → Option (String × List Char)
  | [] => none
  | c :: rest =>
    if c = '"' then some (String.mk acc.reverse, rest)
    else if c = '\\' then
      match rest with
      | [] => none
      | e :: rest2 =>
        match unescapeChar e with
        | some ch => pStringGo (ch :: acc) rest2
        | none => none
    else pStringGo (c :: acc) rest

/-- Parse a JSON integer numeral (fractional and exponent parts are not
modelled: a trailing `.5` makes the top-level parse reject, which the
index layer treats the same as any other parse failure). -/
def pNum (cs : List Char) : Option (JsValue × List Char) :=
  let signAndRest : Bool × List Char :=
    match cs with
    | '-' :: rest => (true, rest)
    | _ => (false, cs)
  let digits := signAndRest.2.takeWhile Char.isDigit
  let rest := signAndRest.2.dropWhile Char.isDigit
  if digits.isEmpty then none
  else
    let n : Nat := digits.foldl (fun a c => a * 10 + (c.toNat - 48)) 0
    some (.vNum (if signAndRest.1 then -(n : Int) else (n : Int)), rest)

mutual

/-- Fuel-driven JSON value parse; fuel strictly decreases on every
recursive call, and `jsonParse` supplies enough for any input. -/
def pVal : Nat → List Char → Option (JsValue × List Char)
  | 0, _ => none
  | f + 1, cs =>
    match skipWs cs with
    | [] => none
    | c :: rest =>
      if c = '"' then (pStringGo [] rest).map (fun p => (.vStr p.1, p.2))
      else if c = '[' then pArrElems f rest [] true
      else if c = braceOpen then pObjFields f rest [] true
      else if c = 't' then
        match rest with
        | 'r' :: 'u' :: 'e' :: r => some (.vBool true, r)
        | _ => none
      else if c = 'f' then
        match rest with
        | 'a' :: 'l' :: 's' :: 'e' :: r => some (.vBool false, r)
        | _ => none
      else if c = 'n' then
        match rest with
        | 'u' :: 'l' :: 'l' :: r => some (.vNull, r)
        | _ => none
      else pNum (c :: rest)

/-- Parse JSON array elements after the opening bracket. -/
def pArrElems : Nat → List Char → List JsValue → Bool → Option (JsValue × List Char)
  | 0, _, _, _ => none
  | f + 1, cs, acc, first =>
    match skipWs cs with
    | [] => none
    | c :: rest =>
      if first && (c == ']') then some (.vArr [], rest)
      else
        match pVal f (c :: rest) with
        | none => none
        | some (v, rest2) =>
          match skipWs rest2 with
          | ',' :: rest3 => pArrElems f rest3 (acc ++ [v]) false
          | ']' :: rest3 => some (.vArr (acc ++ [v]), rest3)
          | _ => none

/-- Parse JSON object entries after the opening brace. -/
def pObjFields : Nat → List Char → List (String × JsValue) → Bool → Option (JsValue × List Char)
  | 0, _, _, _ => none
  | f + 1, cs, acc, first =>
    match skipWs cs with
    | [] => none
    | c :: rest =>
      if first && (c == braceClose) then some (.vObj [], rest)
      else if c = '"' then
        match pStringGo [] rest with
        | none => none
        | some (k, rest2) =>
          match skipWs rest2 with
          | ':' :: rest3 =>
            match pVal f rest3 with
            | none => none
            | some (v, rest4) =>
              match skipWs rest4 with
              | ',' :: rest5 => pObjFields f rest5 (acc ++ [(k, v)]) false
              | d :: rest5 => if d == braceClose then some (.vObj (acc ++ [(k, v)]), rest5) else none
              | [] => none
          | _ => none
      else none

end

/-- JS `JSON.parse` (returning `none` where it would throw): parses the
whole input, rejecting trailing garbage. -/
def jsonParse (s : String) : Option JsValue :=
  match pVal (2 * s.data.length + 8) s.data with
  | some (v, rest) => if (skipWs rest).isEmpty then some v else none
  | none => none

/-! ## Table Store (`BigtableService.ts`) -/

/-- One stored cell: a value and a per-cell timestamp
(`BigtableCell`). -/
structure Cell where
  value : JsValue
  timestamp : Int
deriving Repr

/-- One row: key, column map (`family:qualifier` → cell, in insertion
order) and a row-level timestamp (`BigtableRow`). -/
structure BtRow where
  rowKey : String
  columns : List (String × Cell)
  timestamp : Int
deriving Repr

/-- One table: name, row map (row key → row, in insertion order) and the
declared column-family list (`BigtableTable`). -/
structure BtTable where
  name : String
  rows : List (String × BtRow)
  columnFamilies : List String
deriving Repr

/-- The service's table map (`BigtableService.tables`). -/
abbrev Store := List (String × BtTable)

/-- Failure conditions of the table store; the source throws `Error`s with
distinguishing messages, modelled as distinct constructors. -/
inductive BtError where
  | notFound
  | alreadyExists
  | capacityExceeded
  | invalidColumnFamily
deriving Repr, DecidableEq

/-- `MAX_TABLE_SIZE = 10000`: the per-table row ceiling. -/
def MAX_TABLE_SIZE : Nat := 10000

/-- `column.split(':')[0]`: the column-family prefix of a column key
(the text before the first `:`, or the whole key if there is none). -/
def colFamily (column : String) : String :=
  String.mk (column.data.takeWhile (fun c => c ≠ ':'))

/-- `getTable(name)`: lookup, throwing `NotFound` when absent. -/
def getTable (tables : Store) (name : String) : Except BtError BtTable :=
  match alistGet name tables with
  | some t => .ok t
  | none => .error .notFound

/-- `upsertRow(tableName, row)`: capacity check (a full table rejects a
new key only), column-family validation over the whole incoming row, then
`rows.set(row.rowKey, {...row, timestamp: row.timestamp || Date.now()})`.
`now` stands for `Date.now()` at the call; the thrown-before-mutation
source is modelled by returning the error with no new store. -/
def upsertRow (now : Int) (tables : Store) (tableName : String) (row : BtRow) :
    Except BtError Store :=
  match alistGet tableName tables with
  | none => .error .notFound
  | some table =>
    if decide (MAX_TABLE_SIZE ≤ table.rows.length) && ! alistHas row.rowKey table.rows then
      .error .capacityExceeded
    else if row.columns.any (fun pc => ! memB (colFamily pc.1) table.columnFamilies) then
      .error .invalidColumnFamily
    else
      .ok (alistSet tableName
        { table with
          rows := alistSet row.rowKey
            { row with timestamp := if row.timestamp = 0 then now else row.timestamp }
            table.rows }
        tables)

/-- `getRow(tableName, rowKey)`: the row, or `none` when the key is
absent; `NotFound` only when the table itself is absent. -/
def getRow (tables : Store) (tableName rowKey : String) : Except BtError (Option BtRow) :=
  match alistGet tableName tables with
  | none => .error .notFound
  | some table => .ok (alistGet rowKey table.rows)

/-- `deleteRow(tableName, rowKey)`. -/
def deleteRow (tables : Store) (tableName rowKey : String) : Except BtError (Bool × Store) :=
  match alistGet tableName tables with
  | none => .error .notFound
  | some table =>
    (.ok (alistHas rowKey table.rows,
      alistSet tableName { table with rows := table.rows.filter (fun p => p.1 ≠ rowKey) } tables))

/-- `BigtableQuery` options; `none` models an absent option. -/
structure BtQuery where
  pre : Option String
  startKey : Option String
  endKey : Option String
  limit : Option Nat
  columnFamilies : Option (List String)
  columns : Option (List String)
deriving Repr

/-- One row-key filter step of `query`: JS `&&` short-circuits on a falsy
option, and an empty string option is falsy, so an empty `prefix` /
`startKey` / `endKey` imposes no constraint. -/
def skipRowKey (q : BtQuery) (rowKey : String) : Bool :=
  (match q.pre with
   | some p => (p != "") && ! strStartsWith rowKey p
   | none => false)
  || (match q.startKey with
      | some sk => (sk != "") && strLtB rowKey sk
      | none => false)
  || (match q.endKey with
      | some ek => (ek != "") && strLtB ek rowKey
      | none => false)

/-- `filterRowColumns(row, query)`: project a row to the columns matching
`columnFamilies` / `columns` (both checks apply when both are given). -/
def filterRowColumns (row : BtRow) (q : BtQuery) : BtRow :=
  { rowKey := row.rowKey
    columns := row.columns.filter (fun pc =>
      (match q.columnFamilies with
       | some fams => memB (colFamily pc.1) fams
       | none => true)
      && (match q.columns with
          | some cs => memB pc.1 cs
          | none => true))
    timestamp := row.timestamp }

/-- The `query` limit check `query.limit && result.length >= query.limit`
(a `limit` of `0` is falsy and imposes no bound). -/
def atLimit (q : BtQuery) (len : Nat) : Bool :=
  match q.limit with
  | some n => (n != 0) && decide (n ≤ len)
  | none => false

/-- The row loop of `query`: per candidate row in insertion order, apply
the key filters, project if requested (dropping rows whose projection is
empty), and stop once `limit` results are collected. -/
def queryGo (q : BtQuery) : List (String × BtRow) → List BtRow → List BtRow
  | [], acc => acc
  | (rowKey, row) :: rest, acc =>
    if skipRowKey q rowKey then queryGo q rest acc
    else
      let acc2 :=
        if q.columnFamilies.isSome || q.columns.isSome then
          let fr := filterRowColumns row q
          if 0 < fr.columns.length then acc ++ [fr] else acc
        else acc ++ [row]
      if atLimit q acc2.length then acc2 else queryGo q rest acc2

/-- `query(tableName, query)`. -/
def btQuery (tables : Store) (tableName : String) (q : BtQuery) : Except BtError (List BtRow) :=
  match alistGet tableName tables with
  | none => .error .notFound
  | some table => .ok (queryGo q table.rows [])

/-- A range query `{startKey, endKey}` with no other option, as in the
spec's boundary example. -/
def rangeQuery (sk ek : String) : BtQuery :=
  { pre := none, startKey := some sk, endKey := some ek, limit := none,
    columnFamilies := none, columns := none }

/-! ## Value coercions used by the index layer and the predicate operators -/

/-- Whitespace for the purposes of `Number(string)` trimming (ASCII
whitespace; exotic Unicode space classes are not modelled). -/
def isWsChar (c : Char) : Bool := c = ' ' ∨ c = '\n' ∨ c = '\t' ∨ c = '\r'

/-- Trim leading and trailing whitespace from a character list. -/
def trimChars (cs : List Char) : List Char :=
  ((cs.dropWhile isWsChar).reverse.dropWhile isWsChar).reverse

/-- Parse a nonempty all-digit character list as a natural number. -/
def digitsToNat (cs : List Char) : Option Nat :=
  if cs.isEmpty then none
  else if cs.all Char.isDigit then some (cs.foldl (fun a c => a * 10 + (c.toNat - 48)) 0)
  else none

/-- JS `Number(s)` (`none` = `NaN`), restricted to optionally signed
decimal integers: whitespace trims, the empty string is `0`, anything
non-integral is `NaN` (hex, float and exponent forms are not
modelled). -/
def strToNumOpt (s : String) : Option Int :=
  match trimChars s.data with
  | [] => some 0
  | '-' :: rest => (digitsToNat rest).map (fun n => -(n : Int))
  | '+' :: rest => (digitsToNat rest).map (fun n => (n : Int))
  | cs => (digitsToNat cs).map (fun n => (n : Int))

/-- JS `ToNumber` of a value (`none` = `NaN`). -/
def jsToNum : JsValue → Option Int
  | .vNum n => some n
  | .vBool b => some (if b then 1 else 0)
  | .vNull => some 0
  | .vStr s => strToNumOpt s
  | _ => none

/-- JS truthiness of a modelled value. -/
def jsTruthy : JsValue → Bool
  | .vNull => false
  | .vBool b => b
  | .vNum n => n != 0
  | .vStr s => s != ""
  | .vArr _ => true
  | .vObj _ => true

/-- JS strict equality `===` on modelled values: same primitive type and
value; arrays/objects compare by reference in JS, and the model
conservatively treats two array/object values as distinct references
(`false`) — no claim compares object references. -/
def jsStrictEq : JsValue → JsValue → Bool
  | .vStr a, .vStr b => a == b
  | .vNum a, .vNum b => a == b
  | .vBool a, .vBool b => a == b
  | .vNull, .vNull => true
  | _, _ => false

/-- JS relational `a < b`: string/string compares lexicographically,
otherwise both sides go through `ToNumber` and a `NaN` makes the
comparison `false`. -/
def jsLtB (a b : JsValue) : Bool :=
  match a, b with
  | .vStr x, .vStr y => strLtB x y
  | _, _ =>
    match jsToNum a, jsToNum b with
    | some m, some n => decide (m < n)
    | _, _ => false

/-- JS relational `a <= b` (`false` when a `NaN` is involved). -/
def jsLeB (a b : JsValue) : Bool :=
  match a, b with
  | .vStr x, .vStr y => ! strLtB y x
  | _, _ =>
    match jsToNum a, jsToNum b with
    | some m, some n => decide (m ≤ n)
    | _, _ => false

/-- JS relational `a >= b`. -/
def jsGeB (a b : JsValue) : Bool := jsLeB b a

/-! ## Secondary index layer (`BlobIndexService`) -/

/-- `IndexedBlobMetadata`: the blob's canonical metadata combined with the
searchable indexed fields.  `checksum` is a string ( `''` models the
absent/empty case the source normalises to with `|| ''`). -/
structure IndexedBlobMetadata where
  key : String
  contentType : String
  size : Int
  createdAt : Int
  checksum : String
  tags : List (String × JsValue)
  indexedFields : List (String × JsValue)
deriving Repr

/-- The fixed index table name `BLOB_INDEX_TABLE`. -/
def BLOB_INDEX_TABLE : String := "blob_index"

/-- How `indexBlobMetadata` stores one indexed-field value:
`typeof fieldValue === 'object'` (arrays, objects and `null`) is
serialized with `JSON.stringify`, primitives are stored as-is. -/
def storeValue (v : JsValue) : JsValue :=
  match v with
  | .vArr _ => .vStr (jsonStringify v)
  | .vObj _ => .vStr (jsonStringify v)
  | .vNull => .vStr (jsonStringify v)
  | prim => prim

mutual

/-- JS `String(v)` as used by `Array.prototype.join`: strings unchanged,
numbers/booleans printed, `null` becomes the empty string, nested arrays
join recursively, objects print as `[object Object]`. -/
def jsDisplay : JsValue → String
  | .vStr s => s
  | .vNum n => toString n
  | .vBool b => if b then "true" else "false"
  | .vNull => ""
  | .vArr xs => displayElems xs
  | .vObj _ => "[object Object]"

/-- `xs.join(',')` over modelled values. -/
def displayElems : List JsValue → String
  | [] => ""
  | [x] => jsDisplay x
  | x :: y :: rest => jsDisplay x ++ "," ++ displayElems (y :: rest)

end

/-- One step of `indexBlobMetadata`'s tag loop: assign the
`metadata:tag_<name>` column. -/
def tagColStep (now : Int) (cols : List (String × Cell)) (tv : String × JsValue) :
    List (String × Cell) :=
  alistSet ("metadata:tag_" ++ tv.1) { value := tv.2, timestamp := now } cols

/-- One step of `indexBlobMetadata`'s indexed-field loop: assign the
`index:<name>` column (objects serialized). -/
def fieldColStep (now : Int) (cols : List (String × Cell)) (fv : String × JsValue) :
    List (String × Cell) :=
  alistSet ("index:" ++ fv.1) { value := storeValue fv.2, timestamp := now } cols

/-- `indexBlobMetadata`'s row construction: the four fixed `metadata:*`
columns, one `metadata:tag_<name>` column per tag, one `index:<name>`
column per indexed field (objects serialized), and `content:keywords`
when `indexedFields.keywords` is truthy and an array.  All cell
timestamps and the row timestamp are `Date.now()`, modelled by `now`. -/
def indexRow (now : Int) (m : IndexedBlobMetadata) : BtRow :=
  let base : List (String × Cell) := [
    ("metadata:contentType", { value := .vStr m.contentType, timestamp := now }),
    ("metadata:size", { value := .vNum m.size, timestamp := now }),
    ("metadata:createdAt", { value := .vNum m.createdAt, timestamp := now }),
    ("metadata:checksum", { value := .vStr m.checksum, timestamp := now })]
  let withTags := m.tags.foldl (tagColStep now) base
  let withFields := m.indexedFields.foldl (fieldColStep now) withTags
  let withKw :=
    match alistGet "keywords" m.indexedFields with
    | some kv =>
      if jsTruthy kv then
        match kv with
        | .vArr xs =>
          alistSet "content:keywords" { value := .vStr (displayElems xs), timestamp := now }
            withFields
        | _ => withFields
      else withFields
    | none => withFields
  { rowKey := m.key, columns := withKw, timestamp := now }

/-- `indexBlobMetadata(metadata)`: build the index row and upsert it into
the `blob_index` table. -/
def indexBlobMetadata (now : Int) (tables : Store) (m : IndexedBlobMetadata) :
    Except BtError Store :=
  upsertRow now tables BLOB_INDEX_TABLE (indexRow now m)

/-- The opportunistic JSON re-hydration `rowToIndexedMetadata` applies to
an `index:*` value: a string that starts/ends with braces or brackets is
`JSON.parse`d, keeping the raw string when parsing fails; everything else
is kept as-is. -/
def reviveValue (v : JsValue) : JsValue :=
  match v with
  | .vStr s =>
    if (strStartsWith s (String.mk [braceOpen]) && strEndsWith s (String.mk [braceClose]))
        || (strStartsWith s "[" && strEndsWith s "]") then
      match jsonParse s with
      | some j => j
      | none => .vStr s
    else .vStr s
  | other => other

/-- One step of `rowToIndexedMetadata`'s tag loop: a `metadata:tag_*`
column becomes a tag entry, everything else is skipped. -/
def extractTagStep (acc : List (String × JsValue)) (pc : String × Cell) :
    List (String × JsValue) :=
  if strStartsWith pc.1 "metadata:tag_" then
    alistSet (strDrop pc.1 ("metadata:tag_".length)) pc.2.value acc
  else acc

/-- One step of `rowToIndexedMetadata`'s indexed-field loop: an `index:*`
column becomes an indexed-field entry with opportunistic JSON parsing,
everything else is skipped. -/
def extractIdxStep (acc : List (String × JsValue)) (pc : String × Cell) :
    List (String × JsValue) :=
  if strStartsWith pc.1 "index:" then
    alistSet (strDrop pc.1 ("index:".length)) (reviveValue pc.2.value) acc
  else acc

/-- `rowToIndexedMetadata(row)`: rebuild an `IndexedBlobMetadata` from an
index-table row.  `contentType` falls back to `application/octet-stream`
on a falsy value (a non-string value is not modelled and also falls
back); `size` is `Number(...) || 0`; `createdAt` is
`Number(...) || Date.now()` (modelled by `now`); `metadata:tag_*`
columns become tags and `index:*` columns become indexed fields with
opportunistic JSON parsing. -/
def rowToIndexedMetadata (now : Int) (row : BtRow) : IndexedBlobMetadata :=
  { key := row.rowKey
    contentType :=
      match alistGet "metadata:contentType" row.columns with
      | some c =>
        match c.value with
        | .vStr s => if s = "" then "application/octet-stream" else s
        | _ => "application/octet-stream"
      | none => "application/octet-stream"
    size :=
      match alistGet "metadata:size" row.columns with
      | some c => (jsToNum c.value).getD 0
      | none => 0
    createdAt :=
      match alistGet "metadata:createdAt" row.columns with
      | some c =>
        match jsToNum c.value with
        | some n => if n = 0 then now else n
        | none => now
      | none => now
    checksum :=
      match alistGet "metadata:checksum" row.columns with
      | some c =>
        match c.value with
        | .vStr s => s
        | _ => ""
      | none => ""
    tags := row.columns.foldl extractTagStep []
    indexedFields := row.columns.foldl extractIdxStep [] }

/-- The structured predicate object of a search query: any subset of
`$gt`, `$lt`, `$eq`, `$ne`, `$in` (`none` models an absent key, matching
the source's `!== undefined` guards). -/
structure MPred where
  gt : Option JsValue
  lt : Option JsValue
  eq : Option JsValue
  ne : Option JsValue
  inn : Option (List JsValue)
deriving Repr

/-- One query entry value: a plain scalar (the source's
`typeof value !== 'object'` branch, plus `null`) or a predicate
object. -/
inductive MatchSpec where
  | scalar (v : JsValue)
  | pred (p : MPred)
deriving Repr

/-- The per-field test of `searchBlobs`' filter, given the stored
`index:<field>` value: scalar means `!==`-rejection, a predicate object
checks each present operator with the source's negated comparisons
(`indexedValue <= value.$gt` rejects, etc.). -/
def cellMatches (iv : JsValue) : MatchSpec → Bool
  | .scalar v => jsStrictEq iv v
  | .pred p =>
    (match p.gt with | some g => ! jsLeB iv g | none => true)
    && (match p.lt with | some l => ! jsGeB iv l | none => true)
    && (match p.eq with | some e => jsStrictEq iv e | none => true)
    && (match p.ne with | some n => ! jsStrictEq iv n | none => true)
    && (match p.inn with | some xs => xs.any (fun x => jsStrictEq x iv) | none => true)

/-- The whole-row filter of `searchBlobs`: every queried field must have
an `index:<field>` column (a missing column rejects the row regardless of
operator) whose value passes `cellMatches`. -/
def rowMatches (q : List (String × MatchSpec)) (row : BtRow) : Bool :=
  q.all (fun fq =>
    match alistGet ("index:" ++ fq.1) row.columns with
    | none => false
    | some cell => cellMatches cell.value fq.2)

/-- `BlobQueryOptions` (the part `searchBlobs` reads). -/
structure SearchOptions where
  limit : Option Nat
deriving Repr

/-- `options.limit || 100`: the scan limit handed to the table store
(`0` is falsy and also yields `100`). -/
def effectiveLimit (opts : SearchOptions) : Nat :=
  match opts.limit with
  | some n => if n = 0 then 100 else n
  | none => 100

/-- `searchBlobs(query, options)`: scan the index table with the scan
limit applied by the table store, filter the scanned rows with
`rowMatches`, convert survivors with `rowToIndexedMetadata`; any thrown
error (e.g. the index table missing) is caught and yields `[]`. -/
def searchBlobs (now : Int) (tables : Store) (q : List (String × MatchSpec))
    (opts : SearchOptions) : List IndexedBlobMetadata :=
  match btQuery tables BLOB_INDEX_TABLE
      { pre := none, startKey := none, endKey := none,
        limit := some (effectiveLimit opts), columnFamilies := none, columns := none } with
  | .error _ => []
  | .ok rows => (rows.filter (rowMatches q)).map (rowToIndexedMetadata now)

/-- `{...existing, ...supplied}`: shallow object spread-merge, the
supplied entries assigned left to right on top of the existing ones. -/
def jsMergeFields (old new : List (String × JsValue)) : List (String × JsValue) :=
  new.foldl (fun acc kv => alistSet kv.1 kv.2 acc) old

/-- `updateIndexedMetadata(key, tags?, indexedFields?)`: `null` (with the
store untouched) when the index row is absent or anything throws;
otherwise reconstruct the existing metadata, take the supplied tags when
given (an object, even empty, is truthy), shallow-merge the supplied
indexed fields over the existing ones, and re-run the indexing
projection.  The external `blobstoreService.updateBlobMetadata` call
touches no table-store state and is not modelled. -/
def updateIndexedMetadata (now : Int) (tables : Store) (key : String)
    (tags2 : Option (List (String × JsValue))) (fields2 : Option (List (String × JsValue))) :
    Option IndexedBlobMetadata × Store :=
  match getRow tables BLOB_INDEX_TABLE key with
  | .error _ => (none, tables)
  | .ok none => (none, tables)
  | .ok (some row) =>
    let existing := rowToIndexedMetadata now row
    let updated : IndexedBlobMetadata :=
      { existing with
        tags := match tags2 with | some t => t | none => existing.tags
        indexedFields :=
          jsMergeFields existing.indexedFields
            (match fields2 with | some f => f | none => []) }
    match indexBlobMetadata now tables updated with
    | .error _ => (none, tables)
    | .ok tables2 => (some updated, tables2)

/-- Helper predicate: the column key does not carry the `index:`
namespace (used to reason about which columns contribute indexed
fields). -/
def notIdxB (pc : String × Cell) : Bool := ! strStartsWith pc.1 "index:"

/-- Helper predicate: the column key's family is declared in `fams`. -/
def famOKB (fams : List String) (pc : String × Cell) : Bool := memB (colFamily pc.1) fams

/-! ## Spec-side predicate semantics (for comparison with the code's filter) -/

/-- Modelled from the spec sentence for `searchBlobs`: the per-field
match with `$gt` meaning *strictly greater* and `$lt` *strictly less*
(`jsLtB g iv` / `jsLtB iv l`), all given operators conjoined, scalar
meaning exact equality.  This is the claimed semantics, to be compared
with the source's `cellMatches`. -/
def specFieldSatisfies (iv : JsValue) : MatchSpec → Bool
  | .scalar v => jsStrictEq iv v
  | .pred p =>
    (match p.gt with | some g => jsLtB g iv | none => true)
    && (match p.lt with | some l => jsLtB iv l | none => true)
    && (match p.eq with | some e => jsStrictEq iv e | none => true)
    && (match p.ne with | some n => ! jsStrictEq iv n | none => true)
    && (match p.inn with | some xs => xs.any (fun x => jsStrictEq x iv) | none => true)

/-- Modelled from the spec: a row survives the claimed filter iff every
queried field has an `index:<field>` column whose value satisfies the
match spec in the strict sense of `specFieldSatisfies`. -/
def specRowSurvives (q : List (String × MatchSpec)) (row : BtRow) : Bool :=
  q.all (fun fq =>
    match alistGet ("index:" ++ fq.1) row.columns with
    | none => false
    | some cell => specFieldSatisfies cell.value fq.2)

/-- The per-field match as the code actually behaves, in propositional
form: each present operator must pass, with `$gt` passing iff the stored
value is *not `<=`* the bound (equivalently, strictly greater when the
two are comparable, but also passing values incomparable with the bound)
and dually for `$lt`. -/
def matchSpecOK (iv : JsValue) : MatchSpec → Prop
  | .scalar v => jsStrictEq iv v = true
  | .pred p =>
    (∀ g, p.gt = some g → jsLeB iv g = false)
    ∧ (∀ l, p.lt = some l → jsGeB iv l = false)
    ∧ (∀ e, p.eq = some e → jsStrictEq iv e = true)
    ∧ (∀ n, p.ne = some n → jsStrictEq iv n = false)
    ∧ (∀ xs, p.inn = some xs → xs.any (fun x => jsStrictEq x iv) = true)

/-! ## Concrete fixtures used by counterexamples and witnesses -/

/-- A row with no columns, for populating test tables. -/
def emptyRow (k : String) : BtRow := { rowKey := k, columns := [], timestamp := 1 }

/-- 10000 distinct rows `r0`, `r1`, …, filling a table to its ceiling. -/
def bigRows : List (String × BtRow) :=
  (List.range 10000).map (fun i => ("r" ++ toString i, emptyRow ("r" ++ toString i)))

/-- A table at the `MAX_TABLE_SIZE` ceiling. -/
def bigTable : BtTable := { name := "full", rows := bigRows, columnFamilies := ["cf"] }

/-- A store holding only the full table. -/
def bigStore : Store := [("full", bigTable)]

/-- A fresh row whose key `x` is not in `bigRows`. -/
def xRow : BtRow := { rowKey := "x", columns := [], timestamp := 1 }

/-- A fresh row with key `x` and a column in an undeclared family. -/
def xRowBadFam : BtRow :=
  { rowKey := "x", columns := [("bad:1", { value := .vStr "v", timestamp := 1 })], timestamp := 1 }

/-- A small store with one empty table declaring only family `cf`. -/
def smallStore : Store := [("t", { name := "t", rows := [], columnFamilies := ["cf"] })]

/-- The five-key table of the spec's query-boundary example. -/
def abcdeTable : BtTable :=
  { name := "t", rows := ["a", "b", "c", "d", "e"].map (fun k => (k, emptyRow k)),
    columnFamilies := [] }

/-- Store holding the five-key table. -/
def abcdeStore : Store := [("t", abcdeTable)]

/-- A store holding only the index table, freshly created as the
`BlobIndexService` constructor does. -/
def indexStore0 : Store :=
  [("blob_index", { name := "blob_index", rows := [], columnFamilies := ["metadata", "index", "content"] })]

/-- Metadata for a blob indexed with a numeric `rating` field. -/
def ratedBlob (k : String) (r : Int) : IndexedBlobMetadata :=
  { key := k, contentType := "text/plain", size := 1, createdAt := 1, checksum := "",
    tags := [], indexedFields := [("rating", .vNum r)] }

/-- The store after indexing blobs `b2` and `b4` with ratings 2 and 4. -/
def indexStore24 : Store :=
  match indexBlobMetadata 9 indexStore0 (ratedBlob "b2" 2) with
  | .ok s1 =>
    match indexBlobMetadata 9 s1 (ratedBlob "b4" 4) with
    | .ok s2 => s2
    | .error _ => []
  | .error _ => []

/-- The store after indexing blobs `b2`, `b4`, `b6` with ratings 2, 4, 6. -/
def indexStore246 : Store :=
  match indexBlobMetadata 9 indexStore24 (ratedBlob "b6" 6) with
  | .ok s3 => s3
  | .error _ => []

/-- The query `{rating: {$gt: 3}}`. -/
def qGt3 : List (String × MatchSpec) :=
  [("rating", .pred { gt := some (.vNum 3), lt := none, eq := none, ne := none, inn := none })]

/-- A row whose `index:rating` value is the non-numeric string `abc`,
incomparable with the numeric bound 3. -/
def rowAbc : BtRow :=
  { rowKey := "rx", columns := [("index:rating", { value := .vStr "abc", timestamp := 0 })],
    timestamp := 0 }

/-- The round-trip metadata of the spec's example:
`indexedFields = {rating: 5, tags_list: ["a","b"]}`. -/
def roundtripBlob : IndexedBlobMetadata :=
  { key := "doc1", contentType := "text/plain", size := 3, createdAt := 7, checksum := "c",
    tags := [("team", .vStr "x")],
    indexedFields := [("rating", .vNum 5), ("tags_list", .vArr [.vStr "a", .vStr "b"])] }

/-- A row with one `cf:a` column and a caller-supplied timestamp. -/
def w1Row : BtRow :=
  { rowKey := "k", columns := [("cf:a", { value := .vStr "v", timestamp := 5 })], timestamp := 5 }

/-- The store obtained by upserting `w1Row` into `smallStore`. -/
def w1After : Store := [("t", { name := "t", rows := [("k", w1Row)], columnFamilies := ["cf"] })]

/-- A row with a zero (falsy) caller timestamp. -/
def zeroTsRow : BtRow := { rowKey := "k", columns := [], timestamp := 0 }

/-- A row whose single column lives in an undeclared family. -/
def badFamRow : BtRow :=
  { rowKey := "k", columns := [("bad:1", { value := .vStr "v", timestamp := 1 })], timestamp := 1 }

/-- The index row of blob `b4` (rating 4), as the projection builds it. -/
def c8Row : BtRow := indexRow 9 (ratedBlob "b4" 4)

/-- An index table holding only blob `b4`. -/
def c8Table : BtTable :=
  { name := "blob_index", rows := [("b4", c8Row)], columnFamilies := ["metadata", "index", "content"] }

/-- A store holding only `c8Table`. -/
def c8Store : Store := [("blob_index", c8Table)]

/-! ## Association-list lemmas -/

theorem alistGet_set_self {α : Type} (k : String) (v : α) (l : List (String × α)) :
    alistGet k (alistSet k v l) = some v := by
  induction l with
  | nil => simp [alistSet, alistGet]
  | cons hd tl ih =>
    obtain ⟨k2, v2⟩ := hd
    by_cases h : k2 = k
    · simp [alistSet, alistGet, h]
    · simp [alistSet, alistGet, h, ih]

theorem alistGet_set_ne {α : Type} {k k2 : String} (v : α) (l : List (String × α))
    (h : k2 ≠ k) : alistGet k2 (alistSet k v l) = alistGet k2 l := by
  have hk : ¬ k = k2 := fun hh => h hh.symm
  induction l with
  | nil => simp [alistSet, alistGet, hk]
  | cons hd tl ih =>
    obtain ⟨k3, v3⟩ := hd
    by_cases h3 : k3 = k
    · subst h3
      simp [alistSet, alistGet, hk]
    · simp [alistSet, alistGet, h3, ih]

theorem alistGet_cons_eq {α : Type} {k k2 : String} {v : α} {rest : List (String × α)}
    (h : k2 = k) : alistGet k ((k2, v) :: rest) = some v := by
  simp [alistGet, h]

theorem alistGet_map_none {α β : Type} (k : String) (f : α → String × β) (l : List α)
    (h : ∀ i ∈ l, (f i).1 ≠ k) : alistGet k (l.map f) = none := by
  induction l with
  | nil => rfl
  | cons hd tl ih =>
    have h1 : (f hd).1 ≠ k := h hd (by simp)
    have h2 : alistGet k ((f hd) :: tl.map f) = alistGet k (tl.map f) := by
      rcases hfd : f hd with ⟨k2, v2⟩
      rw [hfd] at h1
      simp only [alistGet]
      simp_all
    simp only [List.map_cons] at h2 ⊢
    rw [h2]
    exact ih (fun i hi => h i (by simp [hi]))

theorem alistSet_append_of_not_has {α : Type} (k : String) (v : α)
    (l1 l2 : List (String × α)) (h : alistHas k l1 = false) :
    alistSet k v (l1 ++ l2) = l1 ++ alistSet k v l2 := by
  induction l1 with
  | nil => rfl
  | cons hd tl ih =>
    obtain ⟨k2, v2⟩ := hd
    by_cases h2 : k2 = k
    · subst h2
      simp [alistHas, alistGet, Option.isSome] at h
    · have htl : alistHas k tl = false := by
        simpa [alistHas, alistGet, h2] using h
      simp [alistSet, h2, ih htl]

theorem alistHas_of_get_some {α : Type} {k : String} {v : α} {l : List (String × α)}
    (h : alistGet k l = some v) : alistHas k l = true := by
  simp [alistHas, h]

theorem alistSet_all {α : Type} (p : String × α → Bool) (k : String) (v : α)
    (l : List (String × α)) (hl : l.all p = true) (hk : p (k, v) = true) :
    (alistSet k v l).all p = true := by
  induction l with
  | nil => simpa [alistSet]
  | cons hd tl ih =>
    obtain ⟨k2, v2⟩ := hd
    simp only [List.all_cons, Bool.and_eq_true] at hl
    by_cases h2 : k2 = k
    · simp [alistSet, h2, hk, hl.2]
    · simp [alistSet, h2, hl.1, ih hl.2]

theorem alistHas_of_all_not {α : Type} (p : String → Bool) (k : String)
    (l : List (String × α)) (hl : l.all (fun pc => ! p pc.1) = true) (hk : p k = true) :
    alistHas k l = false := by
  induction l with
  | nil => rfl
  | cons hd tl ih =>
    obtain ⟨k2, v2⟩ := hd
    simp only [List.all_cons, Bool.and_eq_true] at hl
    by_cases h2 : k2 = k
    · subst h2
      simp_all
    · simpa [alistHas, alistGet, h2] using ih hl.2

theorem any_not_eq_false_of_all {α : Type} (p : α → Bool) (l : List α)
    (h : l.all p = true) : l.any (fun x => ! p x) = false := by
  induction l with
  | nil => rfl
  | cons hd tl ih =>
    simp only [List.all_cons, Bool.and_eq_true] at h
    simp [h.1, ih h.2]

/-! ## String facts -/

theorem strLtB_empty_right (s : String) : strLtB s "" = false := by
  cases s with
  | mk d => cases d <;> rfl

theorem r_append_ne_x (t : String) : ("r" ++ t) ≠ "x" := by
  intro h
  cases t with
  | mk d =>
    have hd := congrArg String.data h
    simp [String.data] at hd

theorem colFamily_tag (t : String) : colFamily ("metadata:tag_" ++ t) = "metadata" := by
  cases t with
  | mk d => rfl

theorem colFamily_index (t : String) : colFamily ("index:" ++ t) = "index" := by
  cases t with
  | mk d => rfl

theorem tagKey_not_index (t : String) :
    strStartsWith ("metadata:tag_" ++ t) "index:" = false := by
  cases t with
  | mk d => rfl

theorem index_append_startsWith (t : String) :
    strStartsWith ("index:" ++ t) "index:" = true := by
  cases t with
  | mk d =>
    show List.isPrefixOf "index:".data ("index:".data ++ d) = true
    apply List.isPrefixOf_iff_prefix.mpr
    exact ⟨d, rfl⟩

/-! ## `upsertRow` characterizations -/

theorem upsertRow_capacity {tables : Store} {tableName : String} {table : BtTable}
    (now : Int) (row : BtRow)
    (h : alistGet tableName tables = some table)
    (hlen : MAX_TABLE_SIZE ≤ table.rows.length)
    (hhas : alistHas row.rowKey table.rows = false) :
    upsertRow now tables tableName row = .error .capacityExceeded := by
  simp only [upsertRow, h]
  simp [hlen, hhas]

theorem upsertRow_not_capacity {tables : Store} {tableName : String} {table : BtTable}
    (now : Int) (row : BtRow)
    (h : alistGet tableName tables = some table)
    (hhas : alistHas row.rowKey table.rows = true) :
    upsertRow now tables tableName row ≠ .error .capacityExceeded := by
  simp only [upsertRow, h, hhas]
  by_cases hbad : row.columns.any (fun pc => ! memB (colFamily pc.1) table.columnFamilies) = true
  · simp [hbad]
  · simp [hbad]

theorem upsertRow_invalid_family {tables : Store} {tableName : String} {table : BtTable}
    (now : Int) (row : BtRow)
    (h : alistGet tableName tables = some table)
    (hcap : table.rows.length < MAX_TABLE_SIZE ∨ alistHas row.rowKey table.rows = true)
    (hbad : row.columns.any (fun pc => ! memB (colFamily pc.1) table.columnFamilies) = true) :
    upsertRow now tables tableName row = .error .invalidColumnFamily := by
  simp only [upsertRow, h]
  have hgate : (decide (MAX_TABLE_SIZE ≤ table.rows.length)
      && ! alistHas row.rowKey table.rows) = false := by
    rcases hcap with hlt | hh
    · simp [Nat.not_le.mpr hlt]
    · simp [hh]
  simp [hgate, hbad]

theorem upsertRow_ok_shape {tables : Store} {tableName : String} {table : BtTable}
    (now : Int) (row : BtRow)
    (h : alistGet tableName tables = some table)
    (hhas : alistHas row.rowKey table.rows = true)
    (hfam : row.columns.all (fun pc => memB (colFamily pc.1) table.columnFamilies) = true) :
    upsertRow now tables tableName row = .ok (alistSet tableName
      { table with
        rows := alistSet row.rowKey
          { row with timestamp := if row.timestamp = 0 then now else row.timestamp }
          table.rows }
      tables) := by
  simp only [upsertRow, h, hhas]
  simp [any_not_eq_false_of_all _ _ hfam]

theorem upsertRow_ok_getRow {tables st2 : Store} {tableName : String} {row : BtRow} {now : Int}
    (h : upsertRow now tables tableName row = .ok st2) :
    getRow st2 tableName row.rowKey =
      .ok (some { row with timestamp := if row.timestamp = 0 then now else row.timestamp }) := by
  unfold upsertRow at h
  split at h
  · simp at h
  · split at h
    · simp at h
    · split at h
      · simp at h
      · have hst := (Except.ok.injEq _ _).mp h
        subst hst
        simp only [getRow, alistGet_set_self]

/-! ## Range-query characterization -/

theorem skipRowKey_range (sk ek k : String) (hek : ek ≠ "") :
    skipRowKey (rangeQuery sk ek) k = (strLtB k sk || strLtB ek k) := by
  by_cases hsk : sk = ""
  · subst hsk
    simp [skipRowKey, rangeQuery, strLtB_empty_right, hek]
  · have h1 : (sk == "") = false := beq_eq_false_iff_ne.mpr hsk
    have h2 : (ek == "") = false := beq_eq_false_iff_ne.mpr hek
    simp [skipRowKey, rangeQuery, bne, h1, h2]

theorem queryGo_range (sk ek : String) (hek : ek ≠ "") (entries : List (String × BtRow)) :
    ∀ acc, queryGo (rangeQuery sk ek) entries acc =
      acc ++ (entries.filter (fun p => ! strLtB p.1 sk && ! strLtB ek p.1)).map Prod.snd := by
  induction entries with
  | nil => intro acc; simp [queryGo]
  | cons hd tl ih =>
    intro acc
    obtain ⟨k, r⟩ := hd
    by_cases hk : (strLtB k sk || strLtB ek k) = true
    · have hpred : (! strLtB k sk && ! strLtB ek k) = false := by
        rcases Bool.or_eq_true_iff.mp hk with h1 | h1 <;> simp [h1]
      have hstep : queryGo (rangeQuery sk ek) ((k, r) :: tl) acc
          = queryGo (rangeQuery sk ek) tl acc := by
        simp only [queryGo, skipRowKey_range sk ek k hek, hk]
        simp
      rw [hstep, ih acc]
      simp [List.filter, hpred]
    · have hor : (strLtB k sk || strLtB ek k) = false := by simpa using hk
      rcases Bool.or_eq_false_iff.mp hor with ⟨h1, h2⟩
      have hpred : (! strLtB k sk && ! strLtB ek k) = true := by simp [h1, h2]
      have hstep : queryGo (rangeQuery sk ek) ((k, r) :: tl) acc
          = queryGo (rangeQuery sk ek) tl (acc ++ [r]) := by
        simp only [queryGo, skipRowKey_range sk ek k hek, hor]
        simp [atLimit, rangeQuery]
      rw [hstep, ih (acc ++ [r])]
      simp [List.filter, hpred]

/-! ## Column-set lemmas for the indexing projection -/

theorem alistSet_eq_append {α : Type} (k : String) (v : α) (l : List (String × α))
    (h : alistHas k l = false) : alistSet k v l = l ++ [(k, v)] := by
  have h2 := alistSet_append_of_not_has k v l [] h
  simpa [alistSet] using h2

theorem tagsFold_notIdx (now : Int) (tags : List (String × JsValue))
    (cols : List (String × Cell)) (h : cols.all notIdxB = true) :
    (tags.foldl (tagColStep now) cols).all notIdxB = true := by
  induction tags generalizing cols with
  | nil => exact h
  | cons hd tl ih =>
    simp only [List.foldl_cons]
    exact ih _ (alistSet_all notIdxB _ _ cols h (by simp [notIdxB, tagKey_not_index]))

theorem extractIdx_skip (cols : List (String × Cell)) (h : cols.all notIdxB = true) :
    ∀ acc, cols.foldl extractIdxStep acc = acc := by
  induction cols with
  | nil => intro acc; rfl
  | cons hd tl ih =>
    intro acc
    simp only [List.all_cons, Bool.and_eq_true] at h
    have hhd : strStartsWith hd.1 "index:" = false := by
      have := h.1
      simpa [notIdxB] using this
    simp only [List.foldl_cons, extractIdxStep, hhd]
    simp only [Bool.false_eq_true, if_false]
    exact ih h.2 acc

theorem notIdx_alistHas (cols : List (String × Cell)) (f : String)
    (h : cols.all notIdxB = true) : alistHas ("index:" ++ f) cols = false := by
  apply alistHas_of_all_not (fun k => strStartsWith k "index:")
  · simpa [notIdxB] using h
  · exact index_append_startsWith f

theorem tagsFold_famOK (fams : List String) (now : Int) (tags : List (String × JsValue))
    (cols : List (String × Cell)) (hm : memB "metadata" fams = true)
    (h : cols.all (famOKB fams) = true) :
    (tags.foldl (tagColStep now) cols).all (famOKB fams) = true := by
  induction tags generalizing cols with
  | nil => exact h
  | cons hd tl ih =>
    simp only [List.foldl_cons]
    exact ih _ (alistSet_all (famOKB fams) _ _ cols h
      (by simp [famOKB, colFamily_tag, hm]))

theorem fieldsFold_famOK (fams : List String) (now : Int)
    (fields : List (String × JsValue)) (cols : List (String × Cell))
    (hi : memB "index" fams = true) (h : cols.all (famOKB fams) = true) :
    (fields.foldl (fieldColStep now) cols).all (famOKB fams) = true := by
  induction fields generalizing cols with
  | nil => exact h
  | cons hd tl ih =>
    simp only [List.foldl_cons]
    exact ih _ (alistSet_all (famOKB fams) _ _ cols h
      (by simp [famOKB, colFamily_index, hi]))

theorem indexRow_famOK (fams : List String) (now : Int) (m : IndexedBlobMetadata)
    (hm : memB "metadata" fams = true) (hi : memB "index" fams = true)
    (hc : memB "content" fams = true) :
    (indexRow now m).columns.all (famOKB fams) = true := by
  have hbase : ([("metadata:contentType", ({ value := .vStr m.contentType, timestamp := now } : Cell)),
      ("metadata:size", { value := .vNum m.size, timestamp := now }),
      ("metadata:createdAt", { value := .vNum m.createdAt, timestamp := now }),
      ("metadata:checksum", { value := .vStr m.checksum, timestamp := now })] :
      List (String × Cell)).all (famOKB fams) = true := by
    simp [famOKB, colFamily, hm]
  have htags := tagsFold_famOK fams now m.tags _ hm hbase
  have hfields := fieldsFold_famOK fams now m.indexedFields _ hi htags
  simp only [indexRow]
  cases hkw : alistGet "keywords" m.indexedFields with
  | none => simpa [hkw] using hfields
  | some kv =>
    by_cases ht : jsTruthy kv = true
    · cases kv with
      | vArr xs =>
        simp only [hkw, ht]
        simp only [if_true]
        exact alistSet_all (famOKB fams) _ _ _ hfields (by simp [famOKB, colFamily, hc])
      | vStr s2 => simpa [hkw, ht] using hfields
      | vNum n2 => simpa [hkw, ht] using hfields
      | vBool b2 => simpa [hkw, ht] using hfields
      | vNull => simpa [hkw, ht] using hfields
      | vObj fs2 => simpa [hkw, ht] using hfields
    · simpa [hkw, ht] using hfields

/-! ## Shallow-merge lookup -/

theorem alistGet_eq_none_of_not_mem {α : Type} (k : String) (l : List (String × α))
    (h : k ∉ l.map Prod.fst) : alistGet k l = none := by
  induction l with
  | nil => rfl
  | cons hd tl ih =>
    obtain ⟨k2, v2⟩ := hd
    simp only [List.map_cons, List.mem_cons] at h
    push_neg at h
    simp only [alistGet]
    rw [if_neg (fun hh => h.1 hh.symm)]
    exact ih h.2

theorem alistGet_merge (old new : List (String × JsValue))
    (hnd : (new.map Prod.fst).Nodup) (f : String) :
    alistGet f (jsMergeFields old new) =
      match alistGet f new with
      | some v => some v
      | none => alistGet f old := by
  induction new generalizing old with
  | nil => simp [jsMergeFields, alistGet]
  | cons hd tl ih =>
    obtain ⟨k, v⟩ := hd
    simp only [List.map_cons, List.nodup_cons] at hnd
    have hstep : jsMergeFields old ((k, v) :: tl) = jsMergeFields (alistSet k v old) tl := rfl
    rw [hstep, ih (alistSet k v old) hnd.2]
    by_cases hf : k = f
    · subst hf
      have htl : alistGet k tl = none := alistGet_eq_none_of_not_mem k tl hnd.1
      simp [alistGet, htl, alistGet_set_self]
    · have hget : alistGet f ((k, v) :: tl) = alistGet f tl := by
        simp [alistGet, hf]
      rw [hget, alistGet_set_ne v old (fun hh => hf hh.symm)]

/-! ## Filter-predicate characterization -/

theorem cellMatches_iff (iv : JsValue) (ms : MatchSpec) :
    cellMatches iv ms = true ↔ matchSpecOK iv ms := by
  cases ms with
  | scalar v => simp [cellMatches, matchSpecOK]
  | pred p =>
    obtain ⟨g2, l2, e2, n2, i2⟩ := p
    cases g2 <;> cases l2 <;> cases e2 <;> cases n2 <;> cases i2 <;>
      simp [cellMatches, matchSpecOK, Bool.and_eq_true, Bool.not_eq_true', and_assoc]

theorem rowMatches_iff (q : List (String × MatchSpec)) (row : BtRow) :
    rowMatches q row = true ↔
      ∀ p ∈ q, ∃ c, alistGet ("index:" ++ p.1) row.columns = some c ∧ matchSpecOK c.value p.2 := by
  simp only [rowMatches, List.all_eq_true]
  constructor
  · intro h p hp
    have hh := h p hp
    cases hc : alistGet ("index:" ++ p.1) row.columns with
    | none => rw [hc] at hh; simp at hh
    | some cell =>
      rw [hc] at hh
      exact ⟨cell, rfl, (cellMatches_iff cell.value p.2).mp hh⟩
  · intro h p hp
    obtain ⟨c, hc, hok⟩ := h p hp
    rw [hc]
    exact (cellMatches_iff c.value p.2).mpr hok

/-! ## Claim theorems -/

/-- C1: for every table and row for which `upsertRow` succeeds, an
immediately following `getRow` on the row's key returns a row whose
column mapping equals the upserted row's columns exactly (full replace,
not a merge), and whose timestamp is the caller-supplied one or, when
none (falsy `0`) was supplied, a value at least the time of the call
(`now` models `Date.now()` at the call). -/
theorem upsert_get_roundtrip (tables st2 : Store) (tableName : String) (row : BtRow)
    (now : Int) (h : upsertRow now tables tableName row = .ok st2) :
    ∃ r2, getRow st2 tableName row.rowKey = .ok (some r2) ∧ r2.columns = row.columns ∧
      (r2.timestamp = row.timestamp ∨ now ≤ r2.timestamp) := by
  refine ⟨_, upsertRow_ok_getRow h, rfl, ?_⟩
  by_cases ht : row.timestamp = 0
  · right; simp [ht]
  · left; simp [ht]

/-- Witness for C1 at a concrete store: upserting `w1Row` into
`smallStore` succeeds and the read-back row has its columns and
timestamp. -/
theorem upsert_get_roundtrip_witness :
    ∃ r2, getRow w1After "t" w1Row.rowKey = .ok (some r2) ∧ r2.columns = w1Row.columns ∧
      (r2.timestamp = w1Row.timestamp ∨ (3 : Int) ≤ r2.timestamp) :=
  upsert_get_roundtrip smallStore w1After "t" w1Row 3 rfl

/-- C2: a table already at the ceiling (`MAX_TABLE_SIZE = 10000`) rejects
an upsert with a new row key with `CapacityExceeded` (the error is
returned with no new store, so the table's row count is unchanged), while
an upsert whose key already exists is never rejected for capacity. -/
theorem upsert_capacity_enforcement :
    MAX_TABLE_SIZE = 10000 ∧
    (∀ (tables : Store) (tableName : String) (table : BtTable) (row : BtRow) (now : Int),
      alistGet tableName tables = some table →
      MAX_TABLE_SIZE ≤ table.rows.length →
      alistHas row.rowKey table.rows = false →
      upsertRow now tables tableName row = .error .capacityExceeded) ∧
    (∀ (tables : Store) (tableName : String) (table : BtTable) (row : BtRow) (now : Int),
      alistGet tableName tables = some table →
      alistHas row.rowKey table.rows = true →
      upsertRow now tables tableName row ≠ .error .capacityExceeded) := by
  refine ⟨rfl, ?_, ?_⟩
  · intro tables tableName table row now h hlen hhas
    exact upsertRow_capacity now row h hlen hhas
  · intro tables tableName table row now h hhas
    exact upsertRow_not_capacity now row h hhas

/-- Witness for C2 at a concrete 10000-row table: the new key `x` is
rejected with `CapacityExceeded`, and re-upserting the existing key `r0`
is not rejected for capacity. -/
theorem upsert_capacity_enforcement_witness :
    upsertRow 5 bigStore "full" xRow = .error .capacityExceeded ∧
    upsertRow 5 bigStore "full" (emptyRow "r0") ≠ .error .capacityExceeded := by
  have hget : alistGet "full" bigStore = some bigTable := rfl
  have hlen : MAX_TABLE_SIZE ≤ bigTable.rows.length := by
    simp [bigTable, bigRows, MAX_TABLE_SIZE]
  have hhas : alistHas "x" bigTable.rows = false := by
    simp only [bigTable, bigRows, alistHas]
    rw [alistGet_map_none "x" _ _ (fun i _ => r_append_ne_x (toString i))]
    rfl
  have hhas0 : alistHas "r0" bigTable.rows = true := by
    simp only [bigTable, bigRows, alistHas]
    rw [List.range_succ_eq_map 9999, List.map_cons]
    have hk : ("r" ++ toString 0) = "r0" := by decide
    rw [alistGet_cons_eq hk]
    rfl
  exact ⟨upsert_capacity_enforcement.2.1 bigStore "full" bigTable xRow 5 hget hlen hhas,
    upsert_capacity_enforcement.2.2 bigStore "full" bigTable (emptyRow "r0") 5 hget hhas0⟩

/-- C10: `row.timestamp || Date.now()` treats any falsy caller timestamp
as absent: a successful upsert of a row with timestamp `0` stores the
current time `now` instead of `0`, and in general every stored row's
timestamp is either the store's current time at write or a nonzero
(truthy) caller-supplied value. -/
theorem upsert_falsy_timestamp :
    (∀ (tables st2 : Store) (tableName : String) (row : BtRow) (now : Int),
      row.timestamp = 0 → upsertRow now tables tableName row = .ok st2 →
      getRow st2 tableName row.rowKey = .ok (some { row with timestamp := now })) ∧
    (∀ (tables st2 : Store) (tableName : String) (row : BtRow) (now : Int),
      upsertRow now tables tableName row = .ok st2 →
      ∃ r2, getRow st2 tableName row.rowKey = .ok (some r2) ∧
        (r2.timestamp = now ∨ (r2.timestamp = row.timestamp ∧ row.timestamp ≠ 0))) := by
  constructor
  · intro tables st2 tableName row now ht h
    have h2 := upsertRow_ok_getRow h
    simpa [ht] using h2
  · intro tables st2 tableName row now h
    refine ⟨_, upsertRow_ok_getRow h, ?_⟩
    by_cases ht : row.timestamp = 0
    · left; simp [ht]
    · right; simp [ht]

/-- Witness for C10: upserting a zero-timestamp row at time 7 stores
timestamp 7. -/
theorem upsert_falsy_timestamp_witness :
    getRow [("t", { name := "t", rows := [("k", { rowKey := "k", columns := [], timestamp := 7 })], columnFamilies := ["cf"] })] "t" zeroTsRow.rowKey = .ok (some { zeroTsRow with timestamp := 7 }) :=
  upsert_falsy_timestamp.1 smallStore _ "t" zeroTsRow 7 rfl rfl

/-- C9: `searchBlobs` never propagates a scan failure: whenever the
underlying table-store query throws (the only failure mode of `query` is
`NotFound`, i.e. the index table is absent from the store), `searchBlobs`
returns the empty list for every query and options.  (In the embedding
`searchBlobs` is a total function, so it cannot raise at all.) -/
theorem search_swallows_scan_failure (now : Int) (tables : Store)
    (q : List (String × MatchSpec)) (opts : SearchOptions)
    (h : alistGet BLOB_INDEX_TABLE tables = none) :
    searchBlobs now tables q opts = [] := by
  simp [searchBlobs, btQuery, h]

/-- Witness for C9: searching an empty store (no `blob_index` table)
yields no results. -/
theorem search_swallows_scan_failure_witness :
    searchBlobs 0 [] qGt3 { limit := none } = [] :=
  search_swallows_scan_failure 0 [] qGt3 { limit := none } rfl

/-- C3 counterexample: the claim says a row with an undeclared column
family always fails with `InvalidColumnFamily`, but the capacity check
runs first: at a full table with a new key, the same row fails with
`CapacityExceeded` instead (while its `bad` family is indeed
undeclared). -/
theorem invalid_family_claim_cex :
    upsertRow 5 bigStore "full" xRowBadFam = .error .capacityExceeded ∧
    memB (colFamily "bad:1") bigTable.columnFamilies = false ∧
    BtError.capacityExceeded ≠ BtError.invalidColumnFamily := by
  refine ⟨?_, by decide, by decide⟩
  have hget : alistGet "full" bigStore = some bigTable := rfl
  have hlen : MAX_TABLE_SIZE ≤ bigTable.rows.length := by
    simp [bigTable, bigRows, MAX_TABLE_SIZE]
  have hhas : alistHas "x" bigTable.rows = false := by
    simp only [bigTable, bigRows, alistHas]
    rw [alistGet_map_none "x" _ _ (fun i _ => r_append_ne_x (toString i))]
    rfl
  exact upsertRow_capacity 5 xRowBadFam hget hlen hhas

/-- C3 (amended): provided the capacity check does not reject first (the
table is below the ceiling, or the row key already exists), an upsert of
a row with at least one column whose family prefix is undeclared fails
with `InvalidColumnFamily`; the validation runs over the whole incoming
row before any mutation, so the error is returned with no new store and
nothing is persisted. -/
theorem upsert_invalid_family (tables : Store) (tableName : String) (table : BtTable)
    (row : BtRow) (now : Int)
    (hget : alistGet tableName tables = some table)
    (hcap : table.rows.length < MAX_TABLE_SIZE ∨ alistHas row.rowKey table.rows = true)
    (hbad : row.columns.any (fun pc => ! memB (colFamily pc.1) table.columnFamilies) = true) :
    upsertRow now tables tableName row = .error .invalidColumnFamily :=
  upsertRow_invalid_family now row hget hcap hbad

/-- Witness for the amended C3: on a small table declaring only `cf`, the
row with a `bad:1` column is rejected with `InvalidColumnFamily`. -/
theorem upsert_invalid_family_witness :
    upsertRow 5 smallStore "t" badFamRow = .error .invalidColumnFamily :=
  upsert_invalid_family smallStore "t" _ badFamRow 5 rfl (Or.inl (by decide)) (by decide)

/-- C4 counterexample: the claim says a row is excluded whenever its key
is lexicographically greater than `endKey`, but an empty `endKey` is
falsy and imposes no upper bound: with `startKey := "a"`, `endKey := ""`
every key of the five-key table exceeds the empty `endKey` yet all five
rows are returned. -/
theorem range_query_claim_cex :
    btQuery abcdeStore "t" (rangeQuery "a" "") =
      .ok [emptyRow "a", emptyRow "b", emptyRow "c", emptyRow "d", emptyRow "e"] ∧
    strLtB "" "a" = true := by
  exact ⟨rfl, by decide⟩

/-- C4 (amended): for a `{startKey, endKey}` query with a nonempty
`endKey` (an empty one is falsy and imposes no upper bound), both bounds
are inclusive: the result is exactly the table's rows, in iteration
order, whose key is neither lexicographically below `startKey` nor above
`endKey`; in particular over keys `a`–`e` the range `b`–`d` returns
exactly `b`, `c`, `d`. -/
theorem range_query_inclusive :
    (∀ (tables : Store) (tableName : String) (table : BtTable) (sk ek : String),
      alistGet tableName tables = some table → ek ≠ "" →
      btQuery tables tableName (rangeQuery sk ek) =
        .ok ((table.rows.filter (fun p => ! strLtB p.1 sk && ! strLtB ek p.1)).map Prod.snd)) ∧
    btQuery abcdeStore "t" (rangeQuery "b" "d") =
      .ok [emptyRow "b", emptyRow "c", emptyRow "d"] := by
  constructor
  · intro tables tableName table sk ek hget hek
    simp only [btQuery, hget]
    rw [queryGo_range sk ek hek table.rows []]
    rfl
  · rfl

/-- Witness for the amended C4 at the five-key table with bounds
`b`/`d`. -/
theorem range_query_inclusive_witness :
    btQuery abcdeStore "t" (rangeQuery "b" "d") =
      .ok ((abcdeTable.rows.filter
        (fun p => ! strLtB p.1 "b" && ! strLtB "d" p.1)).map Prod.snd) :=
  range_query_inclusive.1 abcdeStore "t" abcdeTable "b" "d" rfl (by decide)

/-- C5: projecting any `IndexedBlobMetadata` whose indexed fields are
`{rating: 5, tags_list: ["a","b"]}` into an index-table row and
reconstructing metadata from that row yields `rating` equal to the
number 5 (primitive stored as-is) and `tags_list` deep-equal to
`["a","b"]` (structured value serialized on write and parsed back on
read); the remaining metadata and tags are arbitrary. -/
theorem index_roundtrip_rating_tags (m : IndexedBlobMetadata) (now : Int)
    (h : m.indexedFields = [("rating", .vNum 5), ("tags_list", .vArr [.vStr "a", .vStr "b"])]) :
    alistGet "rating" (rowToIndexedMetadata now (indexRow now m)).indexedFields
      = some (.vNum 5) ∧
    alistGet "tags_list" (rowToIndexedMetadata now (indexRow now m)).indexedFields
      = some (.vArr [.vStr "a", .vStr "b"]) := by
  have hbase : ([("metadata:contentType", ({ value := .vStr m.contentType, timestamp := now } : Cell)),
      ("metadata:size", { value := .vNum m.size, timestamp := now }),
      ("metadata:createdAt", { value := .vNum m.createdAt, timestamp := now }),
      ("metadata:checksum", { value := .vStr m.checksum, timestamp := now })] :
      List (String × Cell)).all notIdxB = true := rfl
  have htags := tagsFold_notIdx now m.tags _ hbase
  have hcols : (indexRow now m).columns
      = alistSet "index:tags_list" { value := .vStr "[\"a\",\"b\"]", timestamp := now }
          (alistSet "index:rating" { value := .vNum 5, timestamp := now }
            (m.tags.foldl (tagColStep now)
              [("metadata:contentType", { value := .vStr m.contentType, timestamp := now }),
               ("metadata:size", { value := .vNum m.size, timestamp := now }),
               ("metadata:createdAt", { value := .vNum m.createdAt, timestamp := now }),
               ("metadata:checksum", { value := .vStr m.checksum, timestamp := now })])) := by
    simp only [indexRow, h]
    rfl
  have hH1 : alistHas "index:rating" (m.tags.foldl (tagColStep now)
      [("metadata:contentType", { value := .vStr m.contentType, timestamp := now }),
       ("metadata:size", { value := .vNum m.size, timestamp := now }),
       ("metadata:createdAt", { value := .vNum m.createdAt, timestamp := now }),
       ("metadata:checksum", { value := .vStr m.checksum, timestamp := now })]) = false :=
    notIdx_alistHas _ "rating" htags
  have hH2 : alistHas "index:tags_list" (m.tags.foldl (tagColStep now)
      [("metadata:contentType", { value := .vStr m.contentType, timestamp := now }),
       ("metadata:size", { value := .vNum m.size, timestamp := now }),
       ("metadata:createdAt", { value := .vNum m.createdAt, timestamp := now }),
       ("metadata:checksum", { value := .vStr m.checksum, timestamp := now })]) = false :=
    notIdx_alistHas _ "tags_list" htags
  have e1 := alistSet_eq_append "index:rating"
    ({ value := JsValue.vNum 5, timestamp := now } : Cell) _ hH1
  have e2 := alistSet_append_of_not_has "index:tags_list"
    ({ value := JsValue.vStr "[\"a\",\"b\"]", timestamp := now } : Cell) _
    [("index:rating", { value := JsValue.vNum 5, timestamp := now })] hH2
  have hext : (rowToIndexedMetadata now (indexRow now m)).indexedFields
      = [("rating", JsValue.vNum 5), ("tags_list", JsValue.vArr [JsValue.vStr "a", JsValue.vStr "b"])] := by
    simp only [rowToIndexedMetadata]
    rw [hcols, e1, e2, List.foldl_append]
    rw [extractIdx_skip _ htags]
    rfl
  exact ⟨by rw [hext]; rfl, by rw [hext]; rfl⟩

/-- Witness for C5 at the concrete blob `doc1`. -/
theorem index_roundtrip_rating_tags_witness :
    alistGet "rating" (rowToIndexedMetadata 9 (indexRow 9 roundtripBlob)).indexedFields
      = some (.vNum 5) ∧
    alistGet "tags_list" (rowToIndexedMetadata 9 (indexRow 9 roundtripBlob)).indexedFields
      = some (.vArr [.vStr "a", .vStr "b"]) :=
  index_roundtrip_rating_tags roundtripBlob 9 rfl

/-- C6 counterexample: the claim reads `$gt` as "stored value strictly
greater than the bound", but the code rejects only when
`indexedValue <= value.$gt` in JS, and a value incomparable with the
bound (here the non-numeric string `abc` against the number 3, whose
coercion is `NaN`) fails both comparisons: the row survives the code's
filter while the claimed strictly-greater semantics excludes it. -/
theorem search_predicate_claim_cex :
    rowMatches qGt3 rowAbc = true ∧ specRowSurvives qGt3 rowAbc = false :=
  ⟨rfl, rfl⟩

/-- C6 (amended): a scanned row survives `searchBlobs`' filter iff every
queried field has an `index:<field>` column (a missing column excludes
the row regardless of operator) whose stored value passes the match
spec, where a scalar spec means strict equality, all operators of a
predicate object must pass, and `$gt` passes iff the stored value is not
`<=` the bound (strictly greater when comparable, and also passing
values incomparable with the bound), dually for `$lt`; in particular
`searchBlobs({rating: {$gt: 3}})` over blobs indexed with ratings 2, 4,
6 returns exactly the blobs `b4` and `b6` in scan order. -/
theorem search_predicate_semantics :
    (∀ (q : List (String × MatchSpec)) (row : BtRow),
      rowMatches q row = true ↔
        ∀ p ∈ q, ∃ c, alistGet ("index:" ++ p.1) row.columns = some c ∧
          matchSpecOK c.value p.2) ∧
    (searchBlobs 9 indexStore246 qGt3 { limit := none }).map IndexedBlobMetadata.key
      = ["b4", "b6"] :=
  ⟨rowMatches_iff, rfl⟩

/-- Witness for C6 applying the characterization at the concrete row
whose `index:rating` holds `abc`: the right-hand side holds there, so
the row passes the filter. -/
theorem search_predicate_semantics_witness : rowMatches qGt3 rowAbc = true := by
  apply (search_predicate_semantics.1 qGt3 rowAbc).mpr
  intro p hp
  simp only [qGt3, List.mem_singleton] at hp
  subst hp
  refine ⟨{ value := .vStr "abc", timestamp := 0 }, rfl, ?_, ?_, ?_, ?_, ?_⟩
  · intro g hg
    cases hg
    rfl
  · intro l hl
    exact Option.noConfusion hl
  · intro e he
    exact Option.noConfusion he
  · intro n hn
    exact Option.noConfusion hn
  · intro xs hxs
    exact Option.noConfusion hxs

/-- C7: the scan limit (`options.limit`, defaulting to 100) is applied by
the table store before the field predicates run: at a store whose index
table holds two rows of which only the second matches `{rating: {$gt:
3}}`, a search with `limit := 1` scans only the first row and returns no
results, even though one (= limit) matching row exists in the table. -/
theorem search_limit_before_filter :
    (searchBlobs 9 indexStore24 qGt3 { limit := some 1 }).length = 0 ∧
    (∃ table, alistGet BLOB_INDEX_TABLE indexStore24 = some table ∧
      1 < table.rows.length ∧
      ((table.rows.map Prod.snd).filter (rowMatches qGt3)).length = 1) ∧
    effectiveLimit { limit := none } = 100 := by
  refine ⟨rfl, ⟨_, rfl, by decide, by decide⟩, rfl⟩

/-- C8: `updateIndexedMetadata` returns `null` with the store unchanged
when no index row exists for the key; otherwise it shallow-merges the
supplied indexed fields over the reconstructed existing ones — every
previously indexed field not named in the supplied mapping is preserved
and every supplied field is added or overwritten — and re-runs the
projection.  The success case assumes the store invariants the service
maintains: the row is keyed by its own `rowKey` and the `blob_index`
table declares the `metadata`/`index`/`content` families; the supplied
mapping, being a JS record, has distinct keys. -/
theorem update_indexed_metadata_merge :
    (∀ (now : Int) (tables : Store) (table : BtTable) (key : String)
       (tg fl2 : Option (List (String × JsValue))),
      alistGet BLOB_INDEX_TABLE tables = some table →
      alistGet key table.rows = none →
      updateIndexedMetadata now tables key tg fl2 = (none, tables)) ∧
    (∀ (now : Int) (tables : Store) (table : BtTable) (key : String) (row : BtRow)
       (tg : Option (List (String × JsValue))) (fl : List (String × JsValue)),
      alistGet BLOB_INDEX_TABLE tables = some table →
      alistGet key table.rows = some row →
      row.rowKey = key →
      memB "metadata" table.columnFamilies = true →
      memB "index" table.columnFamilies = true →
      memB "content" table.columnFamilies = true →
      (fl.map Prod.fst).Nodup →
      ∃ st2 md, updateIndexedMetadata now tables key tg (some fl) = (some md, st2) ∧
        ∀ f, alistGet f md.indexedFields =
          match alistGet f fl with
          | some v => some v
          | none => alistGet f (rowToIndexedMetadata now row).indexedFields) := by
  constructor
  · intro now tables table key tg fl2 hget hrow
    simp [updateIndexedMetadata, getRow, hget, hrow]
  · intro now tables table key row tg fl hget hrow hkey hm hi hc hnd
    have hrowget : getRow tables BLOB_INDEX_TABLE key = .ok (some row) := by
      simp [getRow, hget, hrow]
    have hhasKey : alistHas key table.rows = true := alistHas_of_get_some hrow
    have hhas2 : ∀ u : IndexedBlobMetadata, u.key = key →
        alistHas (indexRow now u).rowKey table.rows = true := by
      intro u hu
      have h1 : (indexRow now u).rowKey = key := by
        simp [indexRow, hu]
      rw [h1]
      exact hhasKey
    cases tg with
    | none =>
      obtain ⟨st2, hst2⟩ : ∃ st2, indexBlobMetadata now tables
          ({ rowToIndexedMetadata now row with
             tags := (rowToIndexedMetadata now row).tags
             indexedFields :=
               jsMergeFields (rowToIndexedMetadata now row).indexedFields fl }) = .ok st2 :=
        ⟨_, upsertRow_ok_shape now _ hget
          (hhas2 _ (by simp [rowToIndexedMetadata, hkey]))
          (indexRow_famOK table.columnFamilies now _ hm hi hc)⟩
      refine ⟨st2,
        { rowToIndexedMetadata now row with
          tags := (rowToIndexedMetadata now row).tags
          indexedFields := jsMergeFields (rowToIndexedMetadata now row).indexedFields fl },
        ?_, ?_⟩
      · simp only [updateIndexedMetadata, hrowget, hst2]
      · intro f
        exact alistGet_merge (rowToIndexedMetadata now row).indexedFields fl hnd f
    | some t =>
      obtain ⟨st2, hst2⟩ : ∃ st2, indexBlobMetadata now tables
          ({ rowToIndexedMetadata now row with
             tags := t
             indexedFields :=
               jsMergeFields (rowToIndexedMetadata now row).indexedFields fl }) = .ok st2 :=
        ⟨_, upsertRow_ok_shape now _ hget
          (hhas2 _ (by simp [rowToIndexedMetadata, hkey]))
          (indexRow_famOK table.columnFamilies now _ hm hi hc)⟩
      refine ⟨st2,
        { rowToIndexedMetadata now row with
          tags := t
          indexedFields := jsMergeFields (rowToIndexedMetadata now row).indexedFields fl },
        ?_, ?_⟩
      · simp only [updateIndexedMetadata, hrowget, hst2]
      · intro f
        exact alistGet_merge (rowToIndexedMetadata now row).indexedFields fl hnd f

/-- Witness for C8 at the store holding only blob `b4`: no row for
`nosuch` yields `null` with the store unchanged, and updating `b4` with
`{newField: "v"}` keeps `rating` and adds `newField`. -/
theorem update_indexed_metadata_merge_witness :
    updateIndexedMetadata 9 c8Store "nosuch" none (some [("newField", .vStr "v")])
      = (none, c8Store) ∧
    (∃ st2 md, updateIndexedMetadata 9 c8Store "b4" none (some [("newField", .vStr "v")])
      = (some md, st2) ∧
      ∀ f, alistGet f md.indexedFields =
        match alistGet f [("newField", JsValue.vStr "v")] with
        | some v => some v
        | none => alistGet f (rowToIndexedMetadata 9 c8Row).indexedFields) := by
  constructor
  · exact update_indexed_metadata_merge.1 9 c8Store c8Table "nosuch" none
      (some [("newField", .vStr "v")]) rfl rfl
  · exact update_indexed_metadata_merge.2 9 c8Store c8Table "b4" c8Row none
      [("newField", .vStr "v")] rfl rfl rfl rfl rfl rfl (by simp)
